import Mathlib

/-!
Verification of the `path` repository (a builder/interpreter for 2D vector
path geometry) against its natural-language specification.

The embedding translates the TypeScript sources:
  * `src/unnamed/part_001` — the `Path` class (command model, pen tracker,
    transform engine, arc-to-curve converter, envelope computation);
  * `src/unnamed/part_000` — the `PathGroup` class (group aggregation);
  * `src/src/types.ts` — the command variants.

JavaScript numbers are read as exact values of a linear ordered field `K`
(instantiated at `ℚ` for concrete computations and at `ℝ` where the code
uses trigonometry).  The envelope scan of `Path.getBounds` starts from the
sentinels `Infinity` / `-Infinity`; these are embedded as `⊤ : WithTop K`
and `⊥ : WithBot K`, so a coordinate that is never written stays at its
sentinel exactly as in the source.
-/

namespace PathSpec

/-- Tagged command variants, from `src/src/types.ts` (`PathCommand`):
`M`, `L`, `H`, `V`, `Q`, `C`, `T`, `S`, `Z`. Each variant carries exactly the
coordinate fields of its TypeScript object shape. -/
inductive Command (K : Type) where
  | m (x y : K)
  | l (x y : K)
  | h (x : K)
  | v (y : K)
  | q (x1 y1 x y : K)
  | c (x1 y1 x2 y2 x y : K)
  | t (x y : K)
  | s (x2 y2 x y : K)
  | z
deriving DecidableEq

/-- Discriminant of a command (the `type` field of the TypeScript union). -/
inductive CmdTag where
  | M | L | H | V | Q | C | T | S | Z
deriving DecidableEq

def Command.tag {K : Type} : Command K → CmdTag
  | .m _ _ => .M
  | .l _ _ => .L
  | .h _ => .H
  | .v _ => .V
  | .q _ _ _ _ => .Q
  | .c _ _ _ _ _ _ => .C
  | .t _ _ => .T
  | .s _ _ _ _ => .S
  | .z => .Z

/-- Corner styles for `Path.rect` / `Path.corner` (`Corner` in `types.ts`). -/
inductive Corner (K : Type) where
  | sharp
  | rounded (rx ry : K)
  | chamfer (rx ry : K)
deriving DecidableEq

/-- Which rectangle corner `Path.corner` draws. -/
inductive Side where
  | tl | tr | br | bl
deriving DecidableEq

/-- The `Path` class data: declared design-space width/height plus the
ordered command list (`_width`, `_height`, `_commands` in part_001). -/
structure Path (K : Type) where
  width : K
  height : K
  commands : List (Command K)
deriving DecidableEq

/-- Bounding box as produced by `Path.getBounds`: the running minima start at
`Infinity` (here `⊤`) and the maxima at `-Infinity` (here `⊥`), so a box of an
empty scan keeps its sentinels, exactly as in the source. -/
structure PathBounds (K : Type) where
  minX : WithTop K
  minY : WithTop K
  maxX : WithBot K
  maxY : WithBot K
deriving DecidableEq

variable {K : Type} [LinearOrderedField K]

/-- X coordinates a command contributes to the envelope scan: the source
(`Path.getBounds`, part_001 lines 911-919) pushes `cmd.x`, then `cmd.x1`,
then `cmd.x2` whenever the field exists on the variant. -/
def Command.xs : Command K → List K
  | .m x _ => [x]
  | .l x _ => [x]
  | .h x => [x]
  | .v _ => []
  | .q x1 _ x _ => [x, x1]
  | .c x1 _ x2 _ x _ => [x, x1, x2]
  | .t x _ => [x]
  | .s x2 _ x _ => [x, x2]
  | .z => []

/-- Y coordinates a command contributes to the envelope scan (`cmd.y`,
`cmd.y1`, `cmd.y2` whenever present). -/
def Command.ys : Command K → List K
  | .m _ y => [y]
  | .l _ y => [y]
  | .h _ => []
  | .v y => [y]
  | .q _ y1 _ y => [y, y1]
  | .c _ y1 _ y2 _ y => [y, y1, y2]
  | .t _ y => [y]
  | .s _ y2 _ y => [y, y2]
  | .z => []

/-- One running-minimum update: `if (x < minX) minX = x` with the running
value living in `WithTop K` (sentinel `⊤` is `Infinity`). -/
def updMin (m : WithTop K) (a : K) : WithTop K :=
  if (a : WithTop K) < m then (a : WithTop K) else m

/-- One running-maximum update: `if (x > maxX) maxX = x`, sentinel `⊥`. -/
def updMax (m : WithBot K) (a : K) : WithBot K :=
  if m < (a : WithBot K) then (a : WithBot K) else m

/-- Running minimum of a coordinate list, started at the `Infinity` sentinel. -/
def minT (l : List K) : WithTop K := l.foldl updMin ⊤

/-- Running maximum of a coordinate list, started at the `-Infinity` sentinel. -/
def maxB (l : List K) : WithBot K := l.foldl updMax ⊥

/-- Envelope computation `Path.getBounds` (part_001 lines 906-930): a single
scan over every coordinate field present on each command.  The source
interleaves the four running updates in one loop; here each running value is
the fold of its updates over the flattened coordinate list, which performs
the identical sequence of comparisons. -/
def Path.getBounds (cs : List (Command K)) : PathBounds K :=
  { minX := minT (cs.flatMap Command.xs)
    minY := minT (cs.flatMap Command.ys)
    maxX := maxB (cs.flatMap Command.xs)
    maxY := maxB (cs.flatMap Command.ys) }

/-- Numeric value of a possibly-still-sentinel minimum.  The finite case is
exact; the sentinel case corresponds to JavaScript arithmetic on `Infinity`
(all theorems that consume this value assume a finite envelope). -/
def topVal (m : WithTop K) : K := m.untop' 0

/-- Numeric value of a possibly-still-sentinel maximum. -/
def botVal (m : WithBot K) : K := m.unbot' 0

/-- Midpoint of the envelope, `Path.getCenter` (part_001 lines 940-946). -/
def Path.getCenter (cs : List (Command K)) : K × K :=
  let b := Path.getBounds cs
  ((topVal b.minX + botVal b.maxX) / 2, (topVal b.minY + botVal b.maxY) / 2)

/-- Pen state threaded by `Path.getCurrentPoint`: current `(x, y)` and the
active subpath start `(subpathStartX, subpathStartY)`. -/
structure PenState (K : Type) where
  x : K
  y : K
  sx : K
  sy : K
deriving DecidableEq

/-- One step of the `Path.getCurrentPoint` replay loop (part_001 lines
1000-1043): `M` sets point and subpath start, `L`/`T`/`Q`/`C`/`S` set the
point to their endpoint, `H` only x, `V` only y, `Z` restores the subpath
start. -/
def penStep (st : PenState K) : Command K → PenState K
  | .m x y => ⟨x, y, x, y⟩
  | .l x y => ⟨x, y, st.sx, st.sy⟩
  | .t x y => ⟨x, y, st.sx, st.sy⟩
  | .h x => ⟨x, st.y, st.sx, st.sy⟩
  | .v y => ⟨st.x, y, st.sx, st.sy⟩
  | .q _ _ x y => ⟨x, y, st.sx, st.sy⟩
  | .c _ _ _ _ x y => ⟨x, y, st.sx, st.sy⟩
  | .s _ _ x y => ⟨x, y, st.sx, st.sy⟩
  | .z => ⟨st.sx, st.sy, st.sx, st.sy⟩

/-- Pen-position tracker `Path.getCurrentPoint` (part_001 lines 990-1046):
early return `(0, 0)` for an empty list, otherwise replay from the origin. -/
def Path.getCurrentPoint (cs : List (Command K)) : K × K :=
  match cs with
  | [] => (0, 0)
  | _ =>
    let st := cs.foldl penStep (⟨0, 0, 0, 0⟩ : PenState K)
    (st.x, st.y)

/-- Replay of a command sequence exactly as §4.2 of the spec words it (the
claim C5 rules): Move sets both current point and subpath-start; Line,
SmoothQuadratic, QuadraticCurve, CubicCurve and SmoothCubic set the current
point to their terminal `(x, y)`; HorizontalLine updates only x;
VerticalLine updates only y; Close resets the current point to the active
subpath-start; the empty sequence yields `(0, 0)`. -/
def currentPointSpec (cs : List (Command K)) : K × K :=
  go cs 0 0 0 0
where
  go : List (Command K) → K → K → K → K → K × K
  | [], x, y, _, _ => (x, y)
  | .m a b :: rest, _, _, _, _ => go rest a b a b
  | .l a b :: rest, _, _, sx, sy => go rest a b sx sy
  | .t a b :: rest, _, _, sx, sy => go rest a b sx sy
  | .q _ _ a b :: rest, _, _, sx, sy => go rest a b sx sy
  | .c _ _ _ _ a b :: rest, _, _, sx, sy => go rest a b sx sy
  | .s _ _ a b :: rest, _, _, sx, sy => go rest a b sx sy
  | .h a :: rest, _, y, sx, sy => go rest a y sx sy
  | .v b :: rest, x, _, sx, sy => go rest x b sx sy
  | .z :: rest, _, _, sx, sy => go rest sx sy sx sy

/-- The transform engine's per-command rewrite, `Path._mapCoords`
(part_001 lines 1175-1220): full-point commands apply `fn` to the endpoint
and independently to each control point; `H` maps `fn(x, 0)` keeping only x;
`V` maps `fn(0, y)` keeping only y; `Z` passes through. -/
def Path.mapCmd (fn : K → K → K × K) : Command K → Command K
  | .m x y => let p := fn x y; .m p.1 p.2
  | .l x y => let p := fn x y; .l p.1 p.2
  | .t x y => let p := fn x y; .t p.1 p.2
  | .h x => let p := fn x 0; .h p.1
  | .v y => let p := fn 0 y; .v p.2
  | .q x1 y1 x y =>
    let c := fn x1 y1
    let p := fn x y
    .q c.1 c.2 p.1 p.2
  | .c x1 y1 x2 y2 x y =>
    let c1 := fn x1 y1
    let c2 := fn x2 y2
    let p := fn x y
    .c c1.1 c1.2 c2.1 c2.2 p.1 p.2
  | .s x2 y2 x y =>
    let c2 := fn x2 y2
    let p := fn x y
    .s c2.1 c2.2 p.1 p.2
  | .z => .z

/-- Whole-sequence remap: `this._commands = this._commands.map(...)`. -/
def Path.mapCoords (fn : K → K → K × K) (cs : List (Command K)) :
    List (Command K) :=
  cs.map (Path.mapCmd fn)

/-- The per-command transform rule exactly as the spec (§4.3) and claim C6
word it: a HorizontalLine with coordinate x becomes the HorizontalLine whose
coordinate is the x component of `f(x, 0)`; a VerticalLine with coordinate y
becomes the VerticalLine whose coordinate is the y component of `f(0, y)`;
Close is passed through unchanged; every full-point command applies the same
`f` to its endpoint and, for curves, independently to each control point. -/
def mapCmdSpecRule (fn : K → K → K × K) : Command K → Command K
  | .h x => .h (fn x 0).1
  | .v y => .v (fn 0 y).2
  | .z => .z
  | .m x y => .m (fn x y).1 (fn x y).2
  | .l x y => .l (fn x y).1 (fn x y).2
  | .t x y => .t (fn x y).1 (fn x y).2
  | .q x1 y1 x y => .q (fn x1 y1).1 (fn x1 y1).2 (fn x y).1 (fn x y).2
  | .c x1 y1 x2 y2 x y =>
    .c (fn x1 y1).1 (fn x1 y1).2 (fn x2 y2).1 (fn x2 y2).2 (fn x y).1 (fn x y).2
  | .s x2 y2 x y => .s (fn x2 y2).1 (fn x2 y2).2 (fn x y).1 (fn x y).2

/-- Builder `Path.m`: push `{type: "M", x, y}`. -/
def Path.m (p : Path K) (x y : K) : Path K :=
  { p with commands := p.commands ++ [Command.m x y] }

/-- Builder `Path.l`: push `{type: "L", x, y}`. -/
def Path.l (p : Path K) (x y : K) : Path K :=
  { p with commands := p.commands ++ [Command.l x y] }

/-- Builder `Path.q`: push `{type: "Q", x1, y1, x, y}`. -/
def Path.q (p : Path K) (x1 y1 x y : K) : Path K :=
  { p with commands := p.commands ++ [Command.q x1 y1 x y] }

/-- Builder `Path.close`: push `{type: "Z"}`. -/
def Path.close (p : Path K) : Path K :=
  { p with commands := p.commands ++ [Command.z] }

/-- Corner emitter `Path.corner` (part_001 lines 732-787). -/
def Path.corner (p : Path K) (side : Side) (x y : K) (c : Corner K) : Path K :=
  match c with
  | .rounded rx ry =>
    match side with
    | .tr => (p.l (x - rx) y).q x y x (y + ry)
    | .br => (p.l x (y - ry)).q x y (x - rx) y
    | .bl => (p.l (x + rx) y).q x y x (y - ry)
    | .tl => (p.l x (y + ry)).q x y (x + rx) y
  | .chamfer rx ry =>
    match side with
    | .tr => (p.l (x - rx) y).l x (y + ry)
    | .br => (p.l x (y - ry)).l (x - rx) y
    | .bl => (p.l (x + rx) y).l x (y - ry)
    | .tl => (p.l x (y + ry)).l (x + rx) y
  | .sharp => p.l x y

/-- Convenience wrapper `Path.roundedCorner`. -/
def Path.roundedCorner (p : Path K) (side : Side) (x y rx ry : K) : Path K :=
  p.corner side x y (Corner.rounded rx ry)

/-- Transform `Path.translate` (part_001 lines 1095-1098). -/
def Path.translate (p : Path K) (dx dy : K) : Path K :=
  { p with commands := Path.mapCoords (fun x y => (x + dx, y + dy)) p.commands }

/-- Transform `Path.scale` (part_001 lines 1068-1080): the default pivot is
the freshly computed envelope midpoint; explicit `cx`/`cy` override it. -/
def Path.scale (p : Path K) (sx sy : K) (cxo cyo : Option K) : Path K :=
  let center := Path.getCenter p.commands
  let cx := cxo.getD center.1
  let cy := cyo.getD center.2
  { p with
    commands :=
      Path.mapCoords
        (fun x y => ((x - cx) * sx + cx, (y - cy) * sy + cy)) p.commands }

/-- Transform `Path.flipX` (part_001 lines 1149-1152): `x ↦ width - x`,
width defaulting to the declared design-space width. -/
def Path.flipX (p : Path K) (wo : Option K) : Path K :=
  let w := wo.getD p.width
  { p with commands := Path.mapCoords (fun x y => (w - x, y)) p.commands }

/-- Transform `Path.flipY` (part_001 lines 1164-1167). -/
def Path.flipY (p : Path K) (ho : Option K) : Path K :=
  let hgt := ho.getD p.height
  { p with commands := Path.mapCoords (fun x y => (x, hgt - y)) p.commands }

/-- Transform `Path.center` (part_001 lines 1238-1256): translate so the
envelope midpoint lands on the target box midpoint. -/
def Path.center (p : Path K) (minX minY maxX maxY : K) : Path K :=
  let b := Path.getBounds p.commands
  let shapeW := botVal b.maxX - topVal b.minX
  let shapeH := botVal b.maxY - topVal b.minY
  let targetW := maxX - minX
  let targetH := maxY - minY
  let dx := minX + (targetW - shapeW) / 2 - topVal b.minX
  let dy := minY + (targetH - shapeH) / 2 - topVal b.minY
  p.translate dx dy

/-- Transform `Path.fit` (part_001 lines 1272-1299): no-op on a degenerate
envelope, otherwise scale by the ratio of target to envelope size, both axes
clamped to the smaller ratio when `preserveAspect`. -/
def Path.fit (p : Path K) (targetW targetH : K) (preserveAspect : Bool) :
    Path K :=
  let b := Path.getBounds p.commands
  let shapeW := botVal b.maxX - topVal b.minX
  let shapeH := botVal b.maxY - topVal b.minY
  if shapeW = 0 ∨ shapeH = 0 then p
  else
    let sx := targetW / shapeW
    let sy := targetH / shapeH
    let sx1 := if preserveAspect then min sx sy else sx
    let sy1 := if preserveAspect then min sx sy else sy
    p.scale sx1 sy1 none none

/-!
Arc-to-Curve Converter, `Path.arcToCubic` (part_001 lines 506-647).
The source is one straight-line function; it is embedded here as a chain of
named definitions, one per intermediate value, each recomputing the values
before it — the composition is extensionally the source computation.
All of it lives over `ℝ` because it uses `cos`, `sin`, `acos`, `sqrt`,
`tan` and `π`.
-/

/-- Rotation in radians: `phi = (Math.PI / 180) * xAxisRotation`. -/
noncomputable def arcPhi (rot : ℝ) : ℝ := Real.pi / 180 * rot

/-- Step 1, x in ellipse space:
`x1p = cosPhi * dx2 + sinPhi * dy2` with `dx2 = (x0 - x) / 2`. -/
noncomputable def arcX1p (x0 y0 rot x y : ℝ) : ℝ :=
  Real.cos (arcPhi rot) * ((x0 - x) / 2) + Real.sin (arcPhi rot) * ((y0 - y) / 2)

/-- Step 1, y in ellipse space:
`y1p = -sinPhi * dx2 + cosPhi * dy2`. -/
noncomputable def arcY1p (x0 y0 rot x y : ℝ) : ℝ :=
  -Real.sin (arcPhi rot) * ((x0 - x) / 2) + Real.cos (arcPhi rot) * ((y0 - y) / 2)

/-- Out-of-range radius test:
`lambda = x1p^2 / (rx * rx) + y1p^2 / (ry * ry)` after `rx = |rx|`, `ry = |ry|`. -/
noncomputable def arcLambda (x0 y0 rx ry rot x y : ℝ) : ℝ :=
  arcX1p x0 y0 rot x y ^ 2 / |rx| ^ 2 + arcY1p x0 y0 rot x y ^ 2 / |ry| ^ 2

/-- Corrected x radius: `if (lambda > 1) rx *= Math.sqrt(lambda)`. -/
noncomputable def arcRx (x0 y0 rx ry rot x y : ℝ) : ℝ :=
  if 1 < arcLambda x0 y0 rx ry rot x y then
    |rx| * Real.sqrt (arcLambda x0 y0 rx ry rot x y)
  else |rx|

/-- Corrected y radius: `if (lambda > 1) ry *= Math.sqrt(lambda)`. -/
noncomputable def arcRy (x0 y0 rx ry rot x y : ℝ) : ℝ :=
  if 1 < arcLambda x0 y0 rx ry rot x y then
    |ry| * Real.sqrt (arcLambda x0 y0 rx ry rot x y)
  else |ry|

/-- Step 2 radicand with its clamp and sign:
`radicant = rxSq*rySq - rxSq*y1pSq - rySq*x1pSq`, clamped to 0 when negative,
divided by `rxSq*y1pSq + rySq*x1pSq`, square-rooted, and negated when
`largeArcFlag === sweepFlag`. -/
noncomputable def arcRadicant (x0 y0 rx ry rot : ℝ) (laf swf : Bool) (x y : ℝ) : ℝ :=
  let rxSq := arcRx x0 y0 rx ry rot x y ^ 2
  let rySq := arcRy x0 y0 rx ry rot x y ^ 2
  let x1pSq := arcX1p x0 y0 rot x y ^ 2
  let y1pSq := arcY1p x0 y0 rot x y ^ 2
  let r0 := rxSq * rySq - rxSq * y1pSq - rySq * x1pSq
  let r1 := if r0 < 0 then 0 else r0
  let r2 := r1 / (rxSq * y1pSq + rySq * x1pSq)
  Real.sqrt r2 * (if laf == swf then -1 else 1)

/-- Step 2 center (x) in ellipse space: `cxp = radicant * rx * y1p / ry`. -/
noncomputable def arcCxp (x0 y0 rx ry rot : ℝ) (laf swf : Bool) (x y : ℝ) : ℝ :=
  arcRadicant x0 y0 rx ry rot laf swf x y * arcRx x0 y0 rx ry rot x y *
    arcY1p x0 y0 rot x y / arcRy x0 y0 rx ry rot x y

/-- Step 2 center (y) in ellipse space: `cyp = radicant * -ry * x1p / rx`. -/
noncomputable def arcCyp (x0 y0 rx ry rot : ℝ) (laf swf : Bool) (x y : ℝ) : ℝ :=
  arcRadicant x0 y0 rx ry rot laf swf x y * -arcRy x0 y0 rx ry rot x y *
    arcX1p x0 y0 rot x y / arcRx x0 y0 rx ry rot x y

/-- Step 3, center back in original coordinates:
`cx = cosPhi * cxp - sinPhi * cyp + (x0 + x) / 2`. -/
noncomputable def arcCx (x0 y0 rx ry rot : ℝ) (laf swf : Bool) (x y : ℝ) : ℝ :=
  Real.cos (arcPhi rot) * arcCxp x0 y0 rx ry rot laf swf x y -
    Real.sin (arcPhi rot) * arcCyp x0 y0 rx ry rot laf swf x y + (x0 + x) / 2

/-- Step 3, `cy = sinPhi * cxp + cosPhi * cyp + (y0 + y) / 2`. -/
noncomputable def arcCy (x0 y0 rx ry rot : ℝ) (laf swf : Bool) (x y : ℝ) : ℝ :=
  Real.sin (arcPhi rot) * arcCxp x0 y0 rx ry rot laf swf x y +
    Real.cos (arcPhi rot) * arcCyp x0 y0 rx ry rot laf swf x y + (y0 + y) / 2

/-- Step 4 helper `unitAngle(ux, uy, vx, vy)`: signed angle between two
vectors via the cross-product sign and the clamped dot product. -/
noncomputable def unitAngle (ux uy vx vy : ℝ) : ℝ :=
  let sign : ℝ := if ux * vy - uy * vx < 0 then -1 else 1
  let dot0 := ux * vx + uy * vy
  let dot1 := if 1 < dot0 then 1 else dot0
  let dot2 := if dot1 < -1 then -1 else dot1
  sign * Real.arccos dot2

/-- First unit vector, x: `v1x = (x1p - cxp) / rx`. -/
noncomputable def arcV1x (x0 y0 rx ry rot : ℝ) (laf swf : Bool) (x y : ℝ) : ℝ :=
  (arcX1p x0 y0 rot x y - arcCxp x0 y0 rx ry rot laf swf x y) /
    arcRx x0 y0 rx ry rot x y

/-- First unit vector, y: `v1y = (y1p - cyp) / ry`. -/
noncomputable def arcV1y (x0 y0 rx ry rot : ℝ) (laf swf : Bool) (x y : ℝ) : ℝ :=
  (arcY1p x0 y0 rot x y - arcCyp x0 y0 rx ry rot laf swf x y) /
    arcRy x0 y0 rx ry rot x y

/-- Second unit vector, x: `v2x = (-x1p - cxp) / rx`. -/
noncomputable def arcV2x (x0 y0 rx ry rot : ℝ) (laf swf : Bool) (x y : ℝ) : ℝ :=
  (-arcX1p x0 y0 rot x y - arcCxp x0 y0 rx ry rot laf swf x y) /
    arcRx x0 y0 rx ry rot x y

/-- Second unit vector, y: `v2y = (-y1p - cyp) / ry`. -/
noncomputable def arcV2y (x0 y0 rx ry rot : ℝ) (laf swf : Bool) (x y : ℝ) : ℝ :=
  (-arcY1p x0 y0 rot x y - arcCyp x0 y0 rx ry rot laf swf x y) /
    arcRy x0 y0 rx ry rot x y

/-- Start angle `theta1 = unitAngle(1, 0, v1x, v1y)`. -/
noncomputable def arcTheta1 (x0 y0 rx ry rot : ℝ) (laf swf : Bool) (x y : ℝ) : ℝ :=
  unitAngle 1 0 (arcV1x x0 y0 rx ry rot laf swf x y)
    (arcV1y x0 y0 rx ry rot laf swf x y)

/-- Sweep span `deltaTheta = unitAngle(v1x, v1y, v2x, v2y)` followed by the
two sweep-direction corrections:
`if (sweepFlag === 0 && deltaTheta > 0) deltaTheta -= 2π` and
`if (sweepFlag === 1 && deltaTheta < 0) deltaTheta += 2π`. -/
noncomputable def arcDelta (x0 y0 rx ry rot : ℝ) (laf swf : Bool) (x y : ℝ) : ℝ :=
  let d0 := unitAngle (arcV1x x0 y0 rx ry rot laf swf x y)
    (arcV1y x0 y0 rx ry rot laf swf x y)
    (arcV2x x0 y0 rx ry rot laf swf x y)
    (arcV2y x0 y0 rx ry rot laf swf x y)
  let d1 := if swf = false ∧ 0 < d0 then d0 - 2 * Real.pi else d0
  if swf = true ∧ d1 < 0 then d1 + 2 * Real.pi else d1

/-- Segment count: `Math.max(Math.ceil(Math.abs(deltaTheta) / (Math.PI / 2)), 1)`. -/
noncomputable def arcSegCount (delta : ℝ) : ℕ :=
  max (Int.ceil (|delta| / (Real.pi / 2))).toNat 1

/-- One loop iteration of the segment loop (part_001 lines 604-644): the
cubic for the slice `[t1, t1 + dT]`, with the tangent-based control points
`alpha = 4/3 * tan(dT / 4)`. -/
noncomputable def arcSegment (cx cy rx ry cosPhi sinPhi t1 dT : ℝ) : Command ℝ :=
  let t2 := t1 + dT
  let p1x := cx + rx * (cosPhi * Real.cos t1) - ry * (sinPhi * Real.sin t1)
  let p1y := cy + rx * (sinPhi * Real.cos t1) + ry * (cosPhi * Real.sin t1)
  let p2x := cx + rx * (cosPhi * Real.cos t2) - ry * (sinPhi * Real.sin t2)
  let p2y := cy + rx * (sinPhi * Real.cos t2) + ry * (cosPhi * Real.sin t2)
  let d1x := -rx * cosPhi * Real.sin t1 - ry * sinPhi * Real.cos t1
  let d1y := -rx * sinPhi * Real.sin t1 + ry * cosPhi * Real.cos t1
  let d2x := -rx * cosPhi * Real.sin t2 - ry * sinPhi * Real.cos t2
  let d2y := -rx * sinPhi * Real.sin t2 + ry * cosPhi * Real.cos t2
  let alpha := 4 / 3 * Real.tan ((t2 - t1) / 4)
  Command.c (p1x + alpha * d1x) (p1y + alpha * d1y)
    (p2x - alpha * d2x) (p2y - alpha * d2y) p2x p2y

/-- The non-degenerate body of `Path.arcToCubic`: iteration `i` of the
source loop starts at `theta1 + i * dTheta` and spans `dTheta`, where
`dTheta = deltaTheta / segments`. -/
noncomputable def arcCore (x0 y0 rx ry rot : ℝ) (laf swf : Bool) (x y : ℝ) :
    List (Command ℝ) :=
  let segs := arcSegCount (arcDelta x0 y0 rx ry rot laf swf x y)
  let dT := arcDelta x0 y0 rx ry rot laf swf x y / segs
  (List.range segs).map (fun i =>
    arcSegment (arcCx x0 y0 rx ry rot laf swf x y)
      (arcCy x0 y0 rx ry rot laf swf x y)
      (arcRx x0 y0 rx ry rot x y) (arcRy x0 y0 rx ry rot x y)
      (Real.cos (arcPhi rot)) (Real.sin (arcPhi rot))
      (arcTheta1 x0 y0 rx ry rot laf swf x y + i * dT) dT)

/-- `Path.arcToCubic` (part_001 lines 506-647): coincident endpoints give
the empty list; a zero radius gives the single straight-line cubic whose
control points are the two endpoints; otherwise the elliptical construction. -/
noncomputable def arcToCubic (x0 y0 rx ry rot : ℝ) (laf swf : Bool) (x y : ℝ) :
    List (Command ℝ) :=
  if x0 = x ∧ y0 = y then []
  else if rx = 0 ∨ ry = 0 then [Command.c x0 y0 x y x y]
  else arcCore x0 y0 rx ry rot laf swf x y

/-- Group envelope `PathGroup.getBounds` (part_000 lines 44-54): the empty
group returns the degenerate zero box; otherwise the componentwise min/max
over the members' own bounds. -/
def groupGetBounds (ps : List (Path K)) : PathBounds K :=
  match ps with
  | [] => ⟨((0 : K) : WithTop K), ((0 : K) : WithTop K),
      ((0 : K) : WithBot K), ((0 : K) : WithBot K)⟩
  | _ =>
    let bs := ps.map (fun p => Path.getBounds p.commands)
    { minX := (bs.map PathBounds.minX).foldl min ⊤
      minY := (bs.map PathBounds.minY).foldl min ⊤
      maxX := (bs.map PathBounds.maxX).foldl max ⊥
      maxY := (bs.map PathBounds.maxY).foldl max ⊥ }

/-- Group transform `PathGroup.scale` (part_000 lines 93-100): the shared
pivot defaults to the midpoint of the group's combined envelope and is passed
explicitly, together with the same factors, to every member's `scale`. -/
def groupScale (sx sy : K) (cxo cyo : Option K) (ps : List (Path K)) :
    List (Path K) :=
  let b := groupGetBounds ps
  let cx := cxo.getD (topVal b.minX + (botVal b.maxX - topVal b.minX) / 2)
  let cy := cyo.getD (topVal b.minY + (botVal b.maxY - topVal b.minY) / 2)
  ps.map (fun p => p.scale sx sy (some cx) (some cy))

/-!
Path-Data Parser.  `Path.parsePathData` is called by `src/src/Path.test.ts`
but its code is not under `src/`; the definitions below are therefore
modelled from the spec (§4.5, §6) rather than translated from source.
-/

/-- Modelled from the spec: raw command tokens recognized by the parser
before arc expansion — the nine stored kinds plus the transient arc token
`A` (§6 input grammar: letters `M L H V Q C T S A Z`, uppercase only). -/
inductive RawCmd where
  | rM (x y : ℚ)
  | rL (x y : ℚ)
  | rH (x : ℚ)
  | rV (y : ℚ)
  | rQ (x1 y1 x y : ℚ)
  | rC (x1 y1 x2 y2 x y : ℚ)
  | rT (x y : ℚ)
  | rS (x2 y2 x y : ℚ)
  | rZ
  | rA (rx ry rot : ℚ) (laf swf : Bool) (x y : ℚ)
deriving DecidableEq

/-- Modelled from the spec: optional comma/whitespace separators (§6) are
skipped between tokens. -/
def skipSeps : List Char → List Char
  | [] => []
  | c :: rest => if c.isWhitespace || c == ',' then skipSeps rest else c :: rest

/-- Numeric value of a decimal digit character. -/
def digitVal (c : Char) : ℕ := c.toNat - 48

/-- Modelled from the spec: the numeric-tokenization boundary scan (§4.5).
State: whether a decimal point was already consumed, whether a digit was
consumed, the accumulated digits as a natural number, and the number of
fraction digits.  A new number begins at an explicit sign, at a decimal
point when the current token already contains one, or at any character
that cannot extend the current number. -/
def scanNum : List Char → Bool → Bool → ℕ → ℕ → (Bool × ℕ × ℕ × List Char)
  | [], _, seenDigit, n, k => (seenDigit, n, k, [])
  | c :: rest, seenDot, seenDigit, n, k =>
    if c.isDigit then
      scanNum rest seenDot true (10 * n + digitVal c) (if seenDot then k + 1 else k)
    else if c == '.' && !seenDot then
      scanNum rest true seenDigit n k
    else (seenDigit, n, k, c :: rest)

/-- Modelled from the spec: parse one number after skipping separators —
an optional explicit sign followed by digits under the boundary rule; fails
if no digit is consumed. -/
def parseNum (cs : List Char) : Option (ℚ × List Char) :=
  let cs1 := skipSeps cs
  match cs1 with
  | '-' :: rest =>
    let r := scanNum rest false false 0 0
    if r.1 then some (-((r.2.1 : ℚ) / 10 ^ r.2.2.1), r.2.2.2) else none
  | '+' :: rest =>
    let r := scanNum rest false false 0 0
    if r.1 then some ((r.2.1 : ℚ) / 10 ^ r.2.2.1, r.2.2.2) else none
  | _ =>
    let r := scanNum cs1 false false 0 0
    if r.1 then some ((r.2.1 : ℚ) / 10 ^ r.2.2.1, r.2.2.2) else none

/-- Modelled from the spec: an arc flag consumes exactly one digit, which
must be 0 or 1, regardless of surrounding punctuation (§4.5). -/
def parseFlag (cs : List Char) : Option (Bool × List Char) :=
  match skipSeps cs with
  | '0' :: rest => some (false, rest)
  | '1' :: rest => some (true, rest)
  | _ => none

/-- Modelled from the spec: read one coordinate group for the given command
letter (§6 arities; the two arc flags are single digits). -/
def readGroup (letter : Char) (cs : List Char) : Option (RawCmd × List Char) :=
  match letter with
  | 'M' => do
    let (x, cs) ← parseNum cs
    let (y, cs) ← parseNum cs
    some (RawCmd.rM x y, cs)
  | 'L' => do
    let (x, cs) ← parseNum cs
    let (y, cs) ← parseNum cs
    some (RawCmd.rL x y, cs)
  | 'H' => do
    let (x, cs) ← parseNum cs
    some (RawCmd.rH x, cs)
  | 'V' => do
    let (y, cs) ← parseNum cs
    some (RawCmd.rV y, cs)
  | 'Q' => do
    let (x1, cs) ← parseNum cs
    let (y1, cs) ← parseNum cs
    let (x, cs) ← parseNum cs
    let (y, cs) ← parseNum cs
    some (RawCmd.rQ x1 y1 x y, cs)
  | 'C' => do
    let (x1, cs) ← parseNum cs
    let (y1, cs) ← parseNum cs
    let (x2, cs) ← parseNum cs
    let (y2, cs) ← parseNum cs
    let (x, cs) ← parseNum cs
    let (y, cs) ← parseNum cs
    some (RawCmd.rC x1 y1 x2 y2 x y, cs)
  | 'T' => do
    let (x, cs) ← parseNum cs
    let (y, cs) ← parseNum cs
    some (RawCmd.rT x y, cs)
  | 'S' => do
    let (x2, cs) ← parseNum cs
    let (y2, cs) ← parseNum cs
    let (x, cs) ← parseNum cs
    let (y, cs) ← parseNum cs
    some (RawCmd.rS x2 y2 x y, cs)
  | 'A' => do
    let (rx, cs) ← parseNum cs
    let (ry, cs) ← parseNum cs
    let (rot, cs) ← parseNum cs
    let (laf, cs) ← parseFlag cs
    let (swf, cs) ← parseFlag cs
    let (x, cs) ← parseNum cs
    let (y, cs) ← parseNum cs
    some (RawCmd.rA rx ry rot laf swf x y, cs)
  | 'Z' => some (RawCmd.rZ, cs)
  | _ => none

/-- Modelled from the spec: the parser loop — after each coordinate group,
either the input is exhausted, a new command letter starts, or the previous
letter implicitly repeats for the next group (§4.5).  `fuel` bounds the
number of groups; malformed input yields `none`. -/
def parseLoop (fuel : ℕ) (letter : Char) (cs : List Char) (acc : List RawCmd) :
    Option (List RawCmd) :=
  match fuel with
  | 0 => none
  | fuel + 1 =>
    match readGroup letter cs with
    | none => none
    | some (cmd, rest) =>
      match skipSeps rest with
      | [] => some (acc ++ [cmd])
      | c :: rest1 =>
        if c.isAlpha then parseLoop fuel c rest1 (acc ++ [cmd])
        else parseLoop fuel letter (c :: rest1) (acc ++ [cmd])

/-- Modelled from the spec: `parse(text)` front end — tokenize the string
into raw commands (the arc token still present). -/
def parseRaw (text : String) : Option (List RawCmd) :=
  match skipSeps text.toList with
  | [] => some []
  | c :: rest =>
    if c.isAlpha then parseLoop (text.length + 1) c rest []
    else none

/-- Modelled from the spec: lowering of the raw command list — every arc
token is immediately expanded through the Arc-to-Curve Converter, called at
the pen position tracked by the §4.2 replay rules, so only the nine stored
command kinds are ever produced. -/
noncomputable def lowerRaw : List RawCmd → ℚ × ℚ → ℚ × ℚ → List (Command ℝ)
  | [], _, _ => []
  | RawCmd.rM x y :: rest, _, _ =>
    Command.m (x : ℝ) (y : ℝ) :: lowerRaw rest (x, y) (x, y)
  | RawCmd.rL x y :: rest, _, st =>
    Command.l (x : ℝ) (y : ℝ) :: lowerRaw rest (x, y) st
  | RawCmd.rH x :: rest, cur, st =>
    Command.h (x : ℝ) :: lowerRaw rest (x, cur.2) st
  | RawCmd.rV y :: rest, cur, st =>
    Command.v (y : ℝ) :: lowerRaw rest (cur.1, y) st
  | RawCmd.rQ x1 y1 x y :: rest, _, st =>
    Command.q (x1 : ℝ) (y1 : ℝ) (x : ℝ) (y : ℝ) :: lowerRaw rest (x, y) st
  | RawCmd.rC x1 y1 x2 y2 x y :: rest, _, st =>
    Command.c (x1 : ℝ) (y1 : ℝ) (x2 : ℝ) (y2 : ℝ) (x : ℝ) (y : ℝ) ::
      lowerRaw rest (x, y) st
  | RawCmd.rT x y :: rest, _, st =>
    Command.t (x : ℝ) (y : ℝ) :: lowerRaw rest (x, y) st
  | RawCmd.rS x2 y2 x y :: rest, _, st =>
    Command.s (x2 : ℝ) (y2 : ℝ) (x : ℝ) (y : ℝ) :: lowerRaw rest (x, y) st
  | RawCmd.rZ :: rest, _, st =>
    Command.z :: lowerRaw rest st st
  | RawCmd.rA rx ry rot laf swf x y :: rest, cur, st =>
    arcToCubic (cur.1 : ℝ) (cur.2 : ℝ) (rx : ℝ) (ry : ℝ) (rot : ℝ) laf swf
      (x : ℝ) (y : ℝ) ++ lowerRaw rest (x, y) st

/-- Modelled from the spec: `Path.parsePathData` — tokenize, then lower arcs,
starting from the origin pen position. -/
noncomputable def parsePathData (text : String) : Option (List (Command ℝ)) :=
  (parseRaw text).map (fun rs => lowerRaw rs (0, 0) (0, 0))

/-- The concrete folder-icon path of claim C2 and the `fit` test
(`src/src/Path.test.ts` lines 47-57): built on a `Path` of width 24, then
centered in the `(0,0)-(24,24)` box. -/
def folderPath : Path ℚ :=
  ((((((((Path.mk 24 24 []).m 0 0).roundedCorner Side.tl 0 0 3 3).l 9
    0).l 12 3).roundedCorner Side.tr 24 3 3 3).roundedCorner Side.br 24 19 3
    3).roundedCorner Side.bl 0 19 3 3).close.center 0 0 24 24

/-- Concrete two-member group with disjoint envelopes for claim C9. -/
def groupPathA : Path ℚ := Path.mk 24 24 [Command.m 0 0, Command.l 2 2]

/-- Second member of the concrete group for claim C9. -/
def groupPathB : Path ℚ := Path.mk 24 24 [Command.m 10 0, Command.l 12 2]

/-- Concrete path with a positive envelope for claims C7. -/
def probePath : Path ℚ := Path.mk 24 24 [Command.m 0 0, Command.l 1 1]

/-- Shape data every transform must preserve (claim C10): sequence length,
the variant tag at every position, and the declared width and height. -/
def preservesShape (p2 p1 : Path ℝ) : Prop :=
  p2.commands.length = p1.commands.length ∧
    p2.commands.map Command.tag = p1.commands.map Command.tag ∧
    p2.width = p1.width ∧ p2.height = p1.height

/-- Transform `Path.rotate` (part_001 lines 1108-1124): rotation about
`(cx, cy)`, default origin. -/
noncomputable def Path.rotate (p : Path ℝ) (angle cx cy : ℝ) : Path ℝ :=
  let cosA := Real.cos angle
  let sinA := Real.sin angle
  { p with
    commands :=
      Path.mapCoords
        (fun x y =>
          ((x - cx) * cosA - (y - cy) * sinA + cx,
            (x - cx) * sinA + (y - cy) * cosA + cy)) p.commands }

/-- Transform `Path.rotateDeg` (part_001 lines 1134-1137). -/
noncomputable def Path.rotateDeg (p : Path ℝ) (angleDeg cx cy : ℝ) : Path ℝ :=
  p.rotate (Real.pi / 180 * angleDeg) cx cy

/-!
Theorems.
-/

/-- The running-minimum update is the lattice minimum on `WithTop`. -/
lemma updMin_eq_min (m : WithTop K) (a : K) :
    updMin m a = min m (a : WithTop K) := by
  unfold updMin
  split
  · next hlt => exact (min_eq_right hlt.le).symm
  · next hlt => exact (min_eq_left (not_lt.mp hlt)).symm

/-- The running-maximum update is the lattice maximum on `WithBot`. -/
lemma updMax_eq_max (m : WithBot K) (a : K) :
    updMax m a = max m (a : WithBot K) := by
  unfold updMax
  split
  · next hlt => exact (max_eq_right hlt.le).symm
  · next hlt => exact (max_eq_left (not_lt.mp hlt)).symm

/-- The left fold of minimum updates from any accumulator. -/
lemma foldl_updMin_eq (l : List K) :
    ∀ m : WithTop K, l.foldl updMin m =
      min m (l.foldr (fun (a : K) (acc : WithTop K) => min (a : WithTop K) acc) ⊤) := by
  induction l with
  | nil => intro m; exact (min_eq_left le_top).symm
  | cons a l ih =>
    intro m
    rw [List.foldl_cons, ih, List.foldr_cons, updMin_eq_min, min_assoc]

/-- The running minimum in right-fold-of-minimum form. -/
lemma minT_eval (l : List K) :
    minT l = l.foldr (fun (a : K) (acc : WithTop K) => min (a : WithTop K) acc) ⊤ := by
  rw [minT, foldl_updMin_eq]
  exact min_eq_right le_top

/-- The left fold of maximum updates from any accumulator. -/
lemma foldl_updMax_eq (l : List K) :
    ∀ m : WithBot K, l.foldl updMax m =
      max m (l.foldr (fun (a : K) (acc : WithBot K) => max (a : WithBot K) acc) ⊥) := by
  induction l with
  | nil => intro m; exact (max_eq_left bot_le).symm
  | cons a l ih =>
    intro m
    rw [List.foldl_cons, ih, List.foldr_cons, updMax_eq_max, max_assoc]

/-- The running maximum in right-fold-of-maximum form. -/
lemma maxB_eval (l : List K) :
    maxB l = l.foldr (fun (a : K) (acc : WithBot K) => max (a : WithBot K) acc) ⊥ := by
  rw [maxB, foldl_updMax_eq]
  exact max_eq_right bot_le

/-- Minimum against the top sentinel. -/
lemma min_coe_top (a : K) :
    min (a : WithTop K) ⊤ = (a : WithTop K) :=
  min_eq_left le_top

/-- Maximum against the bottom sentinel. -/
lemma max_coe_bot (a : K) :
    max (a : WithBot K) ⊥ = (a : WithBot K) :=
  max_eq_left bot_le

omit [LinearOrderedField K] in
/-- The spec-style replay agrees with the fold of `penStep` from any state. -/
lemma currentPointSpec_go_eq (cs : List (Command K)) :
    ∀ x y sx sy, currentPointSpec.go cs x y sx sy =
      ((cs.foldl penStep ⟨x, y, sx, sy⟩).x, (cs.foldl penStep ⟨x, y, sx, sy⟩).y) := by
  induction cs with
  | nil => intro x y sx sy; rfl
  | cons c rest ih =>
    intro x y sx sy
    cases c <;> simp [currentPointSpec.go, penStep, ih]

/-- The transform engine rewrites each variant exactly as the spec rule. -/
lemma mapCmd_eq_spec (fn : K → K → K × K) (c : Command K) :
    Path.mapCmd fn c = mapCmdSpecRule fn c := by
  cases c <;> rfl

/-- Remapping never changes a command's variant tag. -/
lemma tag_mapCmd (fn : K → K → K × K) (c : Command K) :
    (Path.mapCmd fn c).tag = c.tag := by
  cases c <;> rfl

/-- Remapping preserves the tag sequence. -/
lemma mapCoords_tags (fn : K → K → K × K) (cs : List (Command K)) :
    (Path.mapCoords fn cs).map Command.tag = cs.map Command.tag := by
  unfold Path.mapCoords
  rw [List.map_map]
  exact List.map_congr_left fun c _ => tag_mapCmd fn c

/-- Shape data is preserved by any whole-sequence remap. -/
lemma preservesShape_map (p : Path ℝ) (fn : ℝ → ℝ → ℝ × ℝ) :
    preservesShape { p with commands := Path.mapCoords fn p.commands } p := by
  refine ⟨?_, mapCoords_tags fn p.commands, rfl, rfl⟩
  simp [Path.mapCoords]

/-- Shape data preservation is reflexive. -/
lemma preservesShape_refl (p : Path ℝ) : preservesShape p p :=
  ⟨rfl, rfl, rfl, rfl⟩

/-- Scaling preserves shape data (needed for `fit`). -/
lemma preservesShape_scale (p : Path ℝ) (sx sy : ℝ) (cxo cyo : Option ℝ) :
    preservesShape (p.scale sx sy cxo cyo) p :=
  preservesShape_map p _

/-- Monotone maps commute with the right-fold-of-minimum over `WithTop`. -/
lemma foldr_min_map (g : K → K) (hg : Monotone g) (l : List K) :
    (l.map g).foldr (fun (a : K) (acc : WithTop K) => min (a : WithTop K) acc) ⊤ =
      WithTop.map g (l.foldr (fun (a : K) (acc : WithTop K) => min (a : WithTop K) acc) ⊤) := by
  induction l with
  | nil => rfl
  | cons a l ih =>
    rw [List.map_cons, List.foldr_cons, List.foldr_cons, ih]
    induction l.foldr (fun (a : K) (acc : WithTop K) => min (a : WithTop K) acc) ⊤
      using WithTop.recTopCoe with
    | top => simp [min_coe_top]
    | coe b => simp [← WithTop.coe_min, hg.map_min]

/-- Monotone maps commute with the right-fold-of-maximum over `WithBot`. -/
lemma foldr_max_map (g : K → K) (hg : Monotone g) (l : List K) :
    (l.map g).foldr (fun (a : K) (acc : WithBot K) => max (a : WithBot K) acc) ⊥ =
      WithBot.map g (l.foldr (fun (a : K) (acc : WithBot K) => max (a : WithBot K) acc) ⊥) := by
  induction l with
  | nil => rfl
  | cons a l ih =>
    rw [List.map_cons, List.foldr_cons, List.foldr_cons, ih]
    induction l.foldr (fun (a : K) (acc : WithBot K) => max (a : WithBot K) acc) ⊥
      using WithBot.recBotCoe with
    | bot => simp [max_coe_bot]
    | coe b => simp [← WithBot.coe_max, hg.map_max]

/-- A separable remap sends a command's x coordinates through `g`. -/
lemma xs_mapCmd (fn : K → K → K × K) (g h : K → K)
    (hsep : ∀ x y, fn x y = (g x, h y)) (c : Command K) :
    Command.xs (Path.mapCmd fn c) = (Command.xs c).map g := by
  cases c <;> simp [Path.mapCmd, Command.xs, hsep]

/-- A separable remap sends a command's y coordinates through `h`. -/
lemma ys_mapCmd (fn : K → K → K × K) (g h : K → K)
    (hsep : ∀ x y, fn x y = (g x, h y)) (c : Command K) :
    Command.ys (Path.mapCmd fn c) = (Command.ys c).map h := by
  cases c <;> simp [Path.mapCmd, Command.ys, hsep]

/-- A separable remap maps the flattened x-coordinate list through `g`. -/
lemma flatMap_xs_map (fn : K → K → K × K) (g h : K → K)
    (hsep : ∀ x y, fn x y = (g x, h y)) (cs : List (Command K)) :
    (Path.mapCoords fn cs).flatMap Command.xs = (cs.flatMap Command.xs).map g := by
  induction cs with
  | nil => rfl
  | cons c cs ih =>
    simp only [Path.mapCoords, List.map_cons, List.flatMap_cons, List.map_append,
      xs_mapCmd fn g h hsep]
    rw [← ih]
    rfl

/-- A separable remap maps the flattened y-coordinate list through `h`. -/
lemma flatMap_ys_map (fn : K → K → K × K) (g h : K → K)
    (hsep : ∀ x y, fn x y = (g x, h y)) (cs : List (Command K)) :
    (Path.mapCoords fn cs).flatMap Command.ys = (cs.flatMap Command.ys).map h := by
  induction cs with
  | nil => rfl
  | cons c cs ih =>
    simp only [Path.mapCoords, List.map_cons, List.flatMap_cons, List.map_append,
      ys_mapCmd fn g h hsep]
    rw [← ih]
    rfl

/-- Envelope of a sequence remapped by a separable monotone transform. -/
lemma getBounds_sep (fn : K → K → K × K) (g h : K → K)
    (hsep : ∀ x y, fn x y = (g x, h y)) (hg : Monotone g) (hh : Monotone h)
    (cs : List (Command K)) :
    Path.getBounds (Path.mapCoords fn cs) =
      ⟨WithTop.map g (Path.getBounds cs).minX,
        WithTop.map h (Path.getBounds cs).minY,
        WithBot.map g (Path.getBounds cs).maxX,
        WithBot.map h (Path.getBounds cs).maxY⟩ := by
  unfold Path.getBounds
  simp only [minT_eval, maxB_eval, flatMap_xs_map fn g h hsep,
    flatMap_ys_map fn g h hsep, foldr_min_map g hg, foldr_min_map h hh,
    foldr_max_map g hg, foldr_max_map h hh]

/-- A remap that is pointwise the identity leaves each command unchanged. -/
lemma mapCmd_of_eq_id (fn : K → K → K × K) (hfn : ∀ x y, fn x y = (x, y))
    (c : Command K) : Path.mapCmd fn c = c := by
  cases c <;> simp [Path.mapCmd, hfn]

/-- A remap that is pointwise the identity leaves the sequence unchanged. -/
lemma mapCoords_of_eq_id (fn : K → K → K × K) (hfn : ∀ x y, fn x y = (x, y))
    (cs : List (Command K)) : Path.mapCoords fn cs = cs := by
  unfold Path.mapCoords
  calc cs.map (Path.mapCmd fn) = cs.map id :=
        List.map_congr_left (fun c _ => mapCmd_of_eq_id fn hfn c)
    _ = cs := List.map_id cs

/-- Scaling about a pivot with a nonnegative factor is monotone. -/
lemma monotone_affine (s c : K) (hs : 0 ≤ s) :
    Monotone (fun x : K => (x - c) * s + c) := by
  intro a b hab
  simp only
  have := mul_le_mul_of_nonneg_right (sub_le_sub_right hab c) hs
  linarith

/-- On a non-degenerate envelope, `fit` with aspect preservation is the
uniform scale by the smaller target ratio about the default pivot. -/
lemma fit_eval (p : Path K) (w h mx my Mx My : K)
    (hb : Path.getBounds p.commands =
      ⟨(mx : WithTop K), (my : WithTop K), (Mx : WithBot K), (My : WithBot K)⟩)
    (hx : mx < Mx) (hy : my < My) :
    p.fit w h true =
      p.scale (min (w / (Mx - mx)) (h / (My - my)))
        (min (w / (Mx - mx)) (h / (My - my))) none none := by
  simp only [Path.fit, hb, topVal, botVal, WithTop.untop'_coe, WithBot.unbot'_coe]
  rw [if_neg]
  · simp
  · push_neg
    exact ⟨sub_ne_zero.mpr hx.ne', sub_ne_zero.mpr hy.ne'⟩

/-- `scale` with the default pivot is the remap about the envelope midpoint. -/
lemma scale_eval_none (p : Path K) (s1 s2 mx my Mx My : K)
    (hb : Path.getBounds p.commands =
      ⟨(mx : WithTop K), (my : WithTop K), (Mx : WithBot K), (My : WithBot K)⟩) :
    p.scale s1 s2 none none =
      { p with
        commands :=
          Path.mapCoords
            (fun x y => ((x - (mx + Mx) / 2) * s1 + (mx + Mx) / 2,
              (y - (my + My) / 2) * s2 + (my + My) / 2)) p.commands } := by
  simp only [Path.scale, Path.getCenter, hb, topVal, botVal, WithTop.untop'_coe,
    WithBot.unbot'_coe, Option.getD_none]

/-- C1 counterexample: on the empty command sequence, `Path.getBounds` does
not return the degenerate zero box. -/
theorem c1_empty_bounds_counterexample :
    Path.getBounds ([] : List (Command ℚ)) ≠
      ⟨((0 : ℚ) : WithTop ℚ), ((0 : ℚ) : WithTop ℚ),
        ((0 : ℚ) : WithBot ℚ), ((0 : ℚ) : WithBot ℚ)⟩ := by
  decide

/-- C1 (amended): on the empty command sequence `Path.getBounds` returns the
min/max sentinel box (`Infinity`/`-Infinity`, here `⊤`/`⊥`); the degenerate
zero box is returned by `PathGroup.getBounds` for the empty group. -/
theorem c1_empty_bounds_amended :
    Path.getBounds ([] : List (Command ℚ)) =
      ⟨(⊤ : WithTop ℚ), (⊤ : WithTop ℚ), (⊥ : WithBot ℚ), (⊥ : WithBot ℚ)⟩ ∧
    groupGetBounds ([] : List (Path ℚ)) =
      ⟨((0 : ℚ) : WithTop ℚ), ((0 : ℚ) : WithTop ℚ),
        ((0 : ℚ) : WithBot ℚ), ((0 : ℚ) : WithBot ℚ)⟩ :=
  ⟨rfl, rfl⟩

/-- C2: the folder-icon command sequence built by
`m(0,0) → roundedCorner(tl,0,0,3,3) → l(9,0) → l(12,3) →
roundedCorner(tr,24,3,3,3) → roundedCorner(br,24,19,3,3) →
roundedCorner(bl,0,19,3,3) → close` on a width-24 `Path`, then centered in
the `(0,0)-(24,24)` box, has envelope exactly
`{minX: 0, minY: 2.5, maxX: 24, maxY: 21.5}`. -/
theorem c2_folder_bounds :
    Path.getBounds folderPath.commands =
      ⟨((0 : ℚ) : WithTop ℚ), ((2.5 : ℚ) : WithTop ℚ),
        ((24 : ℚ) : WithBot ℚ), ((21.5 : ℚ) : WithBot ℚ)⟩ := by
  simp only [folderPath, Path.m, Path.l, Path.q, Path.close, Path.corner,
    Path.roundedCorner, Path.center, Path.translate, Path.mapCoords,
    Path.mapCmd, Path.getBounds, List.map_cons, List.map_nil,
    List.append_assoc, List.cons_append, List.nil_append, List.flatMap_cons,
    List.flatMap_nil, Command.xs, Command.ys, minT_eval, maxB_eval,
    List.foldr_cons, List.foldr_nil, min_coe_top, max_coe_bot,
    ← WithTop.coe_min, ← WithBot.coe_max, topVal, botVal, WithTop.untop'_coe,
    WithBot.unbot'_coe, PathBounds.mk.injEq, WithTop.coe_eq_coe,
    WithBot.coe_eq_coe]
  norm_num [min_def, max_def]

/-- C3: coincident start and end points make `Path.arcToCubic` return the
empty list for every radius, rotation and flag combination — a defined
no-op, not an error. -/
theorem c3_arc_coincident_noop (x y rx ry rot : ℝ) (laf swf : Bool) :
    arcToCubic x y rx ry rot laf swf x y = [] := by
  unfold arcToCubic
  rw [if_pos ⟨rfl, rfl⟩]

/-- C4: with distinct endpoints and a zero radius, `Path.arcToCubic` returns
exactly one cubic whose control points are the start point and the end point
and whose endpoint is the arc's end point. -/
theorem c4_arc_zero_radius (x0 y0 rx ry rot x y : ℝ) (laf swf : Bool)
    (h1 : ¬(x0 = x ∧ y0 = y)) (h2 : rx = 0 ∨ ry = 0) :
    arcToCubic x0 y0 rx ry rot laf swf x y = [Command.c x0 y0 x y x y] := by
  unfold arcToCubic
  rw [if_neg h1, if_pos h2]

/-- C4 witness: the claim's instance `arcToCubic(0,0, 0, ry, 0,0,0, 10,10)`
at `ry = 5/2` returns the single straight-line cubic. -/
theorem c4_arc_zero_radius_witness :
    ¬((0 : ℝ) = 10 ∧ (0 : ℝ) = 10) ∧
      arcToCubic 0 0 0 (5/2) 0 false false 10 10 =
        [Command.c 0 0 10 10 10 10] :=
  ⟨by norm_num,
    c4_arc_zero_radius 0 0 0 (5/2) 0 10 10 false false (by norm_num)
      (Or.inl rfl)⟩

/-- C5: `Path.getCurrentPoint` returns exactly the point obtained by the
spec's replay rules (Move sets point and subpath-start; Line, SmoothQuadratic,
QuadraticCurve, CubicCurve, SmoothCubic set the point to their terminal;
HorizontalLine only x; VerticalLine only y; Close restores the subpath-start;
empty sequence gives the origin). -/
theorem c5_current_point_replay (cs : List (Command ℝ)) :
    Path.getCurrentPoint cs = currentPointSpec cs := by
  cases cs with
  | nil => rfl
  | cons c rest =>
    unfold Path.getCurrentPoint currentPointSpec
    rw [currentPointSpec_go_eq]

/-- C6: the transform engine `Path._mapCoords` rewrites every command by the
spec rule — `H x` to `H (f(x,0)).x`, `V y` to `V (f(0,y)).y`, `Z` unchanged,
and full-point commands applying the same `f` to the endpoint and
independently to each control point. -/
theorem c6_mapCoords_rule (fn : ℝ → ℝ → ℝ × ℝ) (cs : List (Command ℝ)) :
    Path.mapCoords fn cs = cs.map (mapCmdSpecRule fn) :=
  List.map_congr_left fun c _ => mapCmd_eq_spec fn c

/-- C7 counterexample: a Path with the positive envelope `[0,1] × [0,1]` on
which `fit(-2, -2, true)` applied twice differs from applying it once — the
negative target picks a negative scale factor, and the second application
mirrors the shape again. -/
theorem c7_fit_idem_counterexample :
    Path.getBounds probePath.commands =
      ⟨((0 : ℚ) : WithTop ℚ), ((0 : ℚ) : WithTop ℚ),
        ((1 : ℚ) : WithBot ℚ), ((1 : ℚ) : WithBot ℚ)⟩ ∧
    (probePath.fit (-2) (-2) true).fit (-2) (-2) true ≠
      probePath.fit (-2) (-2) true := by
  constructor
  · decide
  · have h1 : probePath.fit (-2) (-2) true =
        Path.mk 24 24 [Command.m (3/2 : ℚ) (3/2), Command.l (-(1/2)) (-(1/2))] := by
      simp only [probePath, Path.fit, Path.scale, Path.getCenter, Path.translate,
        Path.mapCoords, Path.mapCmd, Path.getBounds,
        List.map_cons, List.map_nil, List.flatMap_cons, List.flatMap_nil,
        List.cons_append, List.nil_append, List.append_nil, List.append_assoc,
        List.singleton_append, Command.xs, Command.ys, minT_eval, maxB_eval,
        List.foldr_cons, List.foldr_nil, min_coe_top, max_coe_bot,
        ← WithTop.coe_min, ← WithBot.coe_max, topVal, botVal, WithTop.untop'_coe,
        WithBot.unbot'_coe, Option.getD_none]
      norm_num [min_def, max_def]
    have h2 : (Path.mk 24 24 [Command.m (3/2 : ℚ) (3/2),
        Command.l (-(1/2)) (-(1/2))]).fit (-2) (-2) true =
        Path.mk 24 24 [Command.m (-(1/2) : ℚ) (-(1/2)), Command.l (3/2) (3/2)] := by
      simp only [Path.fit, Path.scale, Path.getCenter, Path.translate,
        Path.mapCoords, Path.mapCmd, Path.getBounds,
        List.map_cons, List.map_nil, List.flatMap_cons, List.flatMap_nil,
        List.cons_append, List.nil_append, List.append_nil, List.append_assoc,
        List.singleton_append, Command.xs, Command.ys, minT_eval, maxB_eval,
        List.foldr_cons, List.foldr_nil, min_coe_top, max_coe_bot,
        ← WithTop.coe_min, ← WithBot.coe_max, topVal, botVal, WithTop.untop'_coe,
        WithBot.unbot'_coe, Option.getD_none]
      norm_num [min_def, max_def]
    rw [h1, h2]
    intro hcontra
    norm_num [Path.mk.injEq] at hcontra

/-- C7 (amended): for every Path whose envelope has positive width and
positive height and for all positive targets `w > 0`, `h > 0`, applying
`fit(w, h, true)` twice yields the same result as applying it once (the
second call scales by exactly 1). -/
theorem c7_fit_idem_amended (F : Type) [LinearOrderedField F] (p : Path F)
    (w h mx my Mx My : F)
    (hb : Path.getBounds p.commands =
      ⟨(mx : WithTop F), (my : WithTop F), (Mx : WithBot F), (My : WithBot F)⟩)
    (hx : mx < Mx) (hy : my < My) (hw : 0 < w) (hh : 0 < h) :
    (p.fit w h true).fit w h true = p.fit w h true := by
  have hW : (0 : F) < Mx - mx := sub_pos.mpr hx
  have hH : (0 : F) < My - my := sub_pos.mpr hy
  set s : F := min (w / (Mx - mx)) (h / (My - my)) with hsdef
  have hspos : (0 : F) < s := lt_min (div_pos hw hW) (div_pos hh hH)
  set c1 : F := (mx + Mx) / 2 with hc1
  set c2 : F := (my + My) / 2 with hc2
  have h1 : p.fit w h true = p.scale s s none none :=
    fit_eval p w h mx my Mx My hb hx hy
  have h2 : p.scale s s none none =
      { p with
        commands :=
          Path.mapCoords
            (fun x y => ((x - c1) * s + c1, (y - c2) * s + c2)) p.commands } :=
    scale_eval_none p s s mx my Mx My hb
  have hgb : Path.getBounds (Path.mapCoords
      (fun x y => ((x - c1) * s + c1, (y - c2) * s + c2)) p.commands) =
      ⟨(((mx - c1) * s + c1 : F) : WithTop F),
        (((my - c2) * s + c2 : F) : WithTop F),
        (((Mx - c1) * s + c1 : F) : WithBot F),
        (((My - c2) * s + c2 : F) : WithBot F)⟩ := by
    rw [getBounds_sep (fun x y => ((x - c1) * s + c1, (y - c2) * s + c2))
      (fun x => (x - c1) * s + c1) (fun y => (y - c2) * s + c2)
      (fun x y => rfl) (monotone_affine s c1 hspos.le) (monotone_affine s c2 hspos.le)
      p.commands, hb]
    rfl
  have hx2 : (mx - c1) * s + c1 < (Mx - c1) * s + c1 := by nlinarith
  have hy2 : (my - c2) * s + c2 < (My - c2) * s + c2 := by nlinarith
  rw [h1, h2]
  have h3 := fit_eval { p with
      commands :=
        Path.mapCoords
          (fun x y => ((x - c1) * s + c1, (y - c2) * s + c2)) p.commands }
    w h ((mx - c1) * s + c1) ((my - c2) * s + c2) ((Mx - c1) * s + c1)
    ((My - c2) * s + c2) hgb hx2 hy2
  rw [h3]
  have hs1 : min (w / ((Mx - c1) * s + c1 - ((mx - c1) * s + c1)))
      (h / ((My - c2) * s + c2 - ((my - c2) * s + c2))) = 1 := by
    have e1 : (Mx - c1) * s + c1 - ((mx - c1) * s + c1) = (Mx - mx) * s := by ring
    have e2 : (My - c2) * s + c2 - ((my - c2) * s + c2) = (My - my) * s := by ring
    rw [e1, e2, ← div_div, ← div_div, min_div_div_right hspos.le, ← hsdef,
      div_self hspos.ne']
  rw [hs1]
  have h4 := scale_eval_none { p with
      commands :=
        Path.mapCoords
          (fun x y => ((x - c1) * s + c1, (y - c2) * s + c2)) p.commands }
    1 1 ((mx - c1) * s + c1) ((my - c2) * s + c2) ((Mx - c1) * s + c1)
    ((My - c2) * s + c2) hgb
  rw [h4]
  congr 1
  exact mapCoords_of_eq_id _
    (fun x y => by simp only [Prod.mk.injEq]; constructor <;> ring) _

/-- C7 witness: the `[0,1] × [0,1]` Path fitted twice into `2 × 2` equals the
single fit. -/
theorem c7_fit_idem_witness :
    Path.getBounds probePath.commands =
      ⟨((0 : ℚ) : WithTop ℚ), ((0 : ℚ) : WithTop ℚ),
        ((1 : ℚ) : WithBot ℚ), ((1 : ℚ) : WithBot ℚ)⟩ ∧
    (0 : ℚ) < 1 ∧ (0 : ℚ) < 2 ∧
    (probePath.fit 2 2 true).fit 2 2 true = probePath.fit 2 2 true :=
  ⟨by decide, by norm_num, by norm_num,
    c7_fit_idem_amended ℚ probePath 2 2 0 0 1 1 (by decide) (by norm_num)
      (by norm_num) (by norm_num) (by norm_num)⟩

/-- The x-axis rotation 0 of the example arc gives `phi = 0`. -/
lemma arcPhi_zero : arcPhi 0 = 0 := by simp [arcPhi]

/-- Example arc (claim C8), Step 1: `x1p = -9.22`. -/
lemma arcX1p_ex : arcX1p (51/10) (21/100) 0 (1177/50) 74 = -(461/50) := by
  simp only [arcX1p, arcPhi_zero, Real.cos_zero, Real.sin_zero]
  norm_num

/-- Example arc, Step 1: `y1p = -36.895`. -/
lemma arcY1p_ex : arcY1p (51/10) (21/100) 0 (1177/50) 74 = -(7379/200) := by
  simp only [arcY1p, arcPhi_zero, Real.cos_zero, Real.sin_zero]
  norm_num

/-- Example arc: the radius test value `lambda`, far above 1. -/
lemma arcLambda_ex :
    arcLambda (51/10) (21/100) 2 (5/2) 0 (1177/50) 74 = 29881333/125000 := by
  have ha : |(2:ℝ)| = 2 := abs_of_pos (by norm_num)
  have hb : |(5/2:ℝ)| = 5/2 := abs_of_pos (by norm_num)
  simp only [arcLambda, arcX1p_ex, arcY1p_ex, ha, hb]
  norm_num

/-- Example arc: the corrected x radius. -/
lemma arcRx_ex :
    arcRx (51/10) (21/100) 2 (5/2) 0 (1177/50) 74 =
      2 * Real.sqrt (29881333/125000) := by
  have ha : |(2:ℝ)| = 2 := abs_of_pos (by norm_num)
  simp only [arcRx, arcLambda_ex, ha]
  rw [if_pos (by norm_num)]

/-- Example arc: the corrected y radius. -/
lemma arcRy_ex :
    arcRy (51/10) (21/100) 2 (5/2) 0 (1177/50) 74 =
      5/2 * Real.sqrt (29881333/125000) := by
  have hb : |(5/2:ℝ)| = 5/2 := abs_of_pos (by norm_num)
  simp only [arcRy, arcLambda_ex, hb]
  rw [if_pos (by norm_num)]

/-- Example arc: after the radius correction the endpoints are antipodal on
the ellipse, so the radicand vanishes exactly. -/
lemma arcRadicant_ex :
    arcRadicant (51/10) (21/100) 2 (5/2) 0 false true (1177/50) 74 = 0 := by
  have hsq : Real.sqrt (29881333/125000) ^ 2 = 29881333/125000 :=
    Real.sq_sqrt (by norm_num)
  simp only [arcRadicant, arcRx_ex, arcRy_ex, arcX1p_ex, arcY1p_ex, mul_pow, hsq]
  rw [show (2:ℝ)^2 * (29881333/125000) * ((5/2)^2 * (29881333/125000)) -
      2^2 * (29881333/125000) * (-(7379/200))^2 -
      (5/2)^2 * (29881333/125000) * (-(461/50))^2 = 0 by norm_num]
  rw [if_neg (lt_irrefl 0), zero_div, Real.sqrt_zero, zero_mul]

/-- Example arc: the center in ellipse space is the origin (x). -/
lemma arcCxp_ex :
    arcCxp (51/10) (21/100) 2 (5/2) 0 false true (1177/50) 74 = 0 := by
  simp only [arcCxp, arcRadicant_ex, zero_mul, zero_div]

/-- Example arc: the center in ellipse space is the origin (y). -/
lemma arcCyp_ex :
    arcCyp (51/10) (21/100) 2 (5/2) 0 false true (1177/50) 74 = 0 := by
  simp only [arcCyp, arcRadicant_ex, zero_mul, zero_div]

/-- Example arc: the first direction vector is a unit vector. -/
lemma arcV1_sq_ex :
    arcV1x (51/10) (21/100) 2 (5/2) 0 false true (1177/50) 74 ^ 2 +
      arcV1y (51/10) (21/100) 2 (5/2) 0 false true (1177/50) 74 ^ 2 = 1 := by
  have hrpos : (0:ℝ) < 29881333/125000 := by norm_num
  have hsq : Real.sqrt (29881333/125000) ^ 2 = 29881333/125000 :=
    Real.sq_sqrt hrpos.le
  have hsne : Real.sqrt (29881333/125000) ≠ 0 :=
    (Real.sqrt_pos.mpr hrpos).ne'
  simp only [arcV1x, arcV1y, arcX1p_ex, arcY1p_ex, arcCxp_ex, arcCyp_ex,
    arcRx_ex, arcRy_ex, sub_zero, div_pow, mul_pow, hsq]
  norm_num

/-- Example arc: the second direction vector is the negation of the first (x). -/
lemma arcV2x_ex :
    arcV2x (51/10) (21/100) 2 (5/2) 0 false true (1177/50) 74 =
      -arcV1x (51/10) (21/100) 2 (5/2) 0 false true (1177/50) 74 := by
  simp only [arcV2x, arcV1x, arcCxp_ex, sub_zero, neg_div]

/-- Example arc: the second direction vector is the negation of the first (y). -/
lemma arcV2y_ex :
    arcV2y (51/10) (21/100) 2 (5/2) 0 false true (1177/50) 74 =
      -arcV1y (51/10) (21/100) 2 (5/2) 0 false true (1177/50) 74 := by
  simp only [arcV2y, arcV1y, arcCyp_ex, sub_zero, neg_div]

/-- Example arc: the swept angle is exactly pi (antipodal endpoints, sweep 1). -/
lemma arcDelta_ex :
    arcDelta (51/10) (21/100) 2 (5/2) 0 false true (1177/50) 74 = Real.pi := by
  have hd0 : unitAngle (arcV1x (51/10) (21/100) 2 (5/2) 0 false true (1177/50) 74)
      (arcV1y (51/10) (21/100) 2 (5/2) 0 false true (1177/50) 74)
      (arcV2x (51/10) (21/100) 2 (5/2) 0 false true (1177/50) 74)
      (arcV2y (51/10) (21/100) 2 (5/2) 0 false true (1177/50) 74) = Real.pi := by
    rw [arcV2x_ex, arcV2y_ex]
    set a := arcV1x (51/10) (21/100) 2 (5/2) 0 false true (1177/50) 74 with hadef
    set b := arcV1y (51/10) (21/100) 2 (5/2) 0 false true (1177/50) 74 with hbdef
    have hab : a ^ 2 + b ^ 2 = 1 := arcV1_sq_ex
    simp only [unitAngle]
    rw [show a * -b - b * -a = 0 by ring, if_neg (lt_irrefl 0),
      show a * -a + b * -b = -1 by nlinarith [hab]]
    rw [if_neg (by norm_num), if_neg (by norm_num), Real.arccos_neg_one, one_mul]
  have hc1 : ¬((true : Bool) = false ∧ 0 < Real.pi) := by
    intro hcc
    exact absurd hcc.1 (by decide)
  simp only [arcDelta, hd0]
  rw [if_neg hc1]
  simp [Real.pi_pos.not_lt]

/-- A swept angle of pi splits into exactly two segments. -/
lemma arcSegCount_pi : arcSegCount Real.pi = 2 := by
  unfold arcSegCount
  rw [abs_of_pos Real.pi_pos, div_div_eq_mul_div, mul_comm, mul_div_assoc,
    div_self Real.pi_ne_zero, mul_one,
    show ((2:ℝ)) = ((2:ℤ):ℝ) by norm_num, Int.ceil_intCast]
  decide

/-- Every arc segment is a cubic curve command. -/
lemma tag_arcSegment (cx cy rx ry cosPhi sinPhi t1 dT : ℝ) :
    Command.tag (arcSegment cx cy rx ry cosPhi sinPhi t1 dT) = CmdTag.C := rfl

/-- The example arc of claim C8 lowers to exactly two cubic curves. -/
lemma arcToCubic_ex_tags :
    (arcToCubic (51/10) (21/100) 2 (5/2) 0 false true (1177/50) 74).map
      Command.tag = [CmdTag.C, CmdTag.C] := by
  have hg1 : ¬((51/10 : ℝ) = 1177/50 ∧ (21/100 : ℝ) = 74) := by
    intro hcc
    have := hcc.1
    norm_num at this
  have hg2 : ¬((2 : ℝ) = 0 ∨ (5/2 : ℝ) = 0) := by
    intro hcc
    rcases hcc with hcc | hcc <;> norm_num at hcc
  unfold arcToCubic
  rw [if_neg hg1, if_neg hg2]
  simp only [arcCore, arcDelta_ex, arcSegCount_pi]
  rfl

/-- C9: with no explicit center, `PathGroup.scale` passes one shared pivot —
the midpoint of the group's combined envelope — and the same factors to
every member, so each member is remapped by
`c ↦ (c - g) * s + g` at the group center `g` on both axes. -/
theorem c9_group_scale_shared_pivot (F : Type) [LinearOrderedField F]
    (ps : List (Path K)) (sx sy mx my Mx My : K)
    (hb : groupGetBounds ps =
      ⟨(mx : WithTop K), (my : WithTop K), (Mx : WithBot K), (My : WithBot K)⟩) :
    groupScale sx sy none none ps =
      ps.map (fun p =>
        { p with
          commands :=
            Path.mapCoords
              (fun x y =>
                ((x - (mx + (Mx - mx) / 2)) * sx + (mx + (Mx - mx) / 2),
                  (y - (my + (My - my) / 2)) * sy + (my + (My - my) / 2)))
              p.commands }) := by
  simp only [groupScale, hb]
  rfl

/-- C9 witness: two member paths with disjoint envelopes, group scaled by 2
about the combined center `(6, 1)`: every coordinate offset from the group
center doubles, with no per-member pivoting. -/
theorem c9_group_scale_witness :
    groupGetBounds [groupPathA, groupPathB] =
      ⟨((0 : ℚ) : WithTop ℚ), ((0 : ℚ) : WithTop ℚ),
        ((12 : ℚ) : WithBot ℚ), ((2 : ℚ) : WithBot ℚ)⟩ ∧
    groupScale 2 2 none none [groupPathA, groupPathB] =
      [groupPathA, groupPathB].map (fun p =>
        { p with
          commands :=
            Path.mapCoords
              (fun x y =>
                ((x - ((0 : ℚ) + (12 - 0) / 2)) * 2 + ((0 : ℚ) + (12 - 0) / 2),
                  (y - ((0 : ℚ) + (2 - 0) / 2)) * 2 + ((0 : ℚ) + (2 - 0) / 2)))
              p.commands }) :=
  ⟨by decide,
    c9_group_scale_shared_pivot ℚ [groupPathA, groupPathB] 2 2 0 0 12 2
      (by decide)⟩

/-- C8: parsing the path-data string `"M5.1 0.21A2 2.5 0 0123.54 74"` yields
exactly 3 commands — one Move followed by two cubic curves (the arc's
angular span is exactly pi, which exceeds 90 degrees, so the converter
splits it into two segments) — and, the stored command type having no arc
variant, the returned sequence contains no raw arc command. -/
theorem c8_parse_example :
    (parsePathData ("M5.1 0.21A2 2.5 0 0123.54 74")).map
      (fun l => l.map Command.tag) = some [CmdTag.M, CmdTag.C, CmdTag.C] := by
  have h1 : parseRaw ("M5.1 0.21A2 2.5 0 0123.54 74") =
      some [RawCmd.rM (((51:ℕ):ℚ)/10^1) (((21:ℕ):ℚ)/10^2),
        RawCmd.rA (((2:ℕ):ℚ)/10^0) (((25:ℕ):ℚ)/10^1) (((0:ℕ):ℚ)/10^0) false true
          (((2354:ℕ):ℚ)/10^2) (((74:ℕ):ℚ)/10^0)] := rfl
  have e1 : ((((51:ℕ):ℚ)/10^1 : ℚ) : ℝ) = 51/10 := by push_cast; norm_num
  have e2 : ((((21:ℕ):ℚ)/10^2 : ℚ) : ℝ) = 21/100 := by push_cast; norm_num
  have e3 : ((((2:ℕ):ℚ)/10^0 : ℚ) : ℝ) = 2 := by push_cast; norm_num
  have e4 : ((((25:ℕ):ℚ)/10^1 : ℚ) : ℝ) = 5/2 := by push_cast; norm_num
  have e5 : ((((0:ℕ):ℚ)/10^0 : ℚ) : ℝ) = 0 := by push_cast; norm_num
  have e6 : ((((2354:ℕ):ℚ)/10^2 : ℚ) : ℝ) = 1177/50 := by push_cast; norm_num
  have e7 : ((((74:ℕ):ℚ)/10^0 : ℚ) : ℝ) = 74 := by push_cast; norm_num
  unfold parsePathData
  rw [h1]
  simp only [Option.map_some', lowerRaw, List.append_nil, List.map_cons,
    Command.tag, e1, e2, e3, e4, e5, e6, e7, arcToCubic_ex_tags]

/-- C10: every transform operation of `Path` — translate, scale, rotate,
rotateDeg, flipX, flipY, center, fit — preserves the length of the command
sequence, the variant tag at every position, and the declared width and
height. -/
theorem c10_transforms_preserve_shape (p : Path ℝ)
    (dx dy sx sy ang adeg cx cy mnx mny mxx mxy tw th : ℝ)
    (cxo cyo wo ho : Option ℝ) (pa : Bool) :
    preservesShape (p.translate dx dy) p ∧
    preservesShape (p.scale sx sy cxo cyo) p ∧
    preservesShape (p.rotate ang cx cy) p ∧
    preservesShape (p.rotateDeg adeg cx cy) p ∧
    preservesShape (p.flipX wo) p ∧
    preservesShape (p.flipY ho) p ∧
    preservesShape (p.center mnx mny mxx mxy) p ∧
    preservesShape (p.fit tw th pa) p := by
  refine ⟨preservesShape_map p _, preservesShape_scale p sx sy cxo cyo,
    preservesShape_map p _, preservesShape_map p _, preservesShape_map p _,
    preservesShape_map p _, preservesShape_map p _, ?_⟩
  simp only [Path.fit]
  split
  · exact preservesShape_refl p
  · exact preservesShape_scale p _ _ none none

end PathSpec
